import Mathlib

/-!
Verification of the influxdb_exporter one-shot converter (`main.go`) against its
natural-language specification.

Strings are modelled as lists of bytes (`List Nat`), since the Go code operates
on strings as byte sequences while iterating them as UTF-8 rune sequences.
-/

namespace InfluxdbExporter

/-- ASCII byte list of a Lean string literal (used only for ASCII literals,
where code points and UTF-8 bytes coincide). -/
def asciiBytes (s : String) : List Nat :=
  s.data.map Char.toNat

/-- The character test of `ReplaceInvalidChars` (main.go lines 138-141):
a rune is kept iff it is in a-z, A-Z, 0-9 or an underscore. -/
def validRune (c : Nat) : Bool :=
  (97 ≤ c && c ≤ 122) || (65 ≤ c && c ≤ 90) || (48 ≤ c && c ≤ 57) || c == 95

/-- Accept range for the second byte of a multi-byte UTF-8 sequence, by leading
byte, following Go's `unicode/utf8` decoding tables. -/
def acceptRange (b0 : Nat) : Nat × Nat :=
  if b0 = 0xE0 then (0xA0, 0xBF)
  else if b0 = 0xED then (0x80, 0x9F)
  else if b0 = 0xF0 then (0x90, 0xBF)
  else if b0 = 0xF4 then (0x80, 0x8F)
  else (0x80, 0xBF)

/-- The (byte index, rune) pairs produced by Go's `for i, c := range s` over a
string held as a byte list, starting at byte index `i`.  Malformed sequences
yield U+FFFD with width one, as in Go's `unicode/utf8.DecodeRuneInString`. -/
def runePairsAux : Nat → List Nat → List (Nat × Nat)
  | _, [] => []
  | i, b0 :: rest =>
    if b0 < 0x80 then
      (i, b0) :: runePairsAux (i + 1) rest
    else if b0 < 0xC2 || 0xF4 < b0 then
      (i, 0xFFFD) :: runePairsAux (i + 1) rest
    else if b0 < 0xE0 then
      match rest with
      | b1 :: rest1 =>
        if 0x80 ≤ b1 && b1 ≤ 0xBF then
          (i, (b0 % 0x20) * 0x40 + b1 % 0x40) :: runePairsAux (i + 2) rest1
        else
          (i, 0xFFFD) :: runePairsAux (i + 1) (b1 :: rest1)
      | [] => [(i, 0xFFFD)]
    else if b0 < 0xF0 then
      match rest with
      | b1 :: b2 :: rest2 =>
        if ((acceptRange b0).1 ≤ b1 && b1 ≤ (acceptRange b0).2) &&
            (0x80 ≤ b2 && b2 ≤ 0xBF) then
          (i, (b0 % 0x10) * 0x1000 + (b1 % 0x40) * 0x40 + b2 % 0x40) ::
            runePairsAux (i + 3) rest2
        else
          (i, 0xFFFD) :: runePairsAux (i + 1) (b1 :: b2 :: rest2)
      | [b1] => (i, 0xFFFD) :: runePairsAux (i + 1) [b1]
      | [] => [(i, 0xFFFD)]
    else
      match rest with
      | b1 :: b2 :: b3 :: rest3 =>
        if (((acceptRange b0).1 ≤ b1 && b1 ≤ (acceptRange b0).2) &&
            (0x80 ≤ b2 && b2 ≤ 0xBF)) && (0x80 ≤ b3 && b3 ≤ 0xBF) then
          (i, (b0 % 8) * 0x40000 + (b1 % 0x40) * 0x1000 + (b2 % 0x40) * 0x40 + b3 % 0x40) ::
            runePairsAux (i + 4) rest3
        else
          (i, 0xFFFD) :: runePairsAux (i + 1) (b1 :: b2 :: b3 :: rest3)
      | [b1, b2] => (i, 0xFFFD) :: runePairsAux (i + 1) [b1, b2]
      | [b1] => (i, 0xFFFD) :: runePairsAux (i + 1) [b1]
      | [] => [(i, 0xFFFD)]

/-- The rewrite loop of `ReplaceInvalidChars` (main.go lines 136-145): iterate
the rune pairs of the ORIGINAL string (Go evaluates the range expression once)
and, for each rune failing `validRune`, overwrite the single byte at the rune's
starting index in the CURRENT string with an underscore. -/
def rewritePass (s : List Nat) : List Nat :=
  (runePairsAux 0 s).foldl
    (fun acc p => if validRune p.2 then acc else acc.set p.1 95) s

/-- `ReplaceInvalidChars` (main.go lines 134-150): the rewrite loop followed by
the digit-prefix check `(*in)[0]`.  Indexing byte 0 of an empty string panics in
Go; the panic is modelled as `none`. -/
def ReplaceInvalidChars (s : List Nat) : Option (List Nat) :=
  match rewritePass s with
  | [] => none
  | b :: t => some (if 48 ≤ b && b ≤ 57 then 95 :: b :: t else b :: t)

example : ReplaceInvalidChars (asciiBytes "cpu") = some (asciiBytes "cpu") := by decide
example : ReplaceInvalidChars (asciiBytes "9cpu") = some (asciiBytes "_9cpu") := by decide
example : ReplaceInvalidChars (asciiBytes "a.b") = some (asciiBytes "a_b") := by decide
example : ReplaceInvalidChars [] = none := by decide
example : ReplaceInvalidChars [0xC3, 0xA9] = some [95, 0xA9] := by decide
example : ReplaceInvalidChars [95, 0xA9] = some [95, 95] := by decide

/-! ### Field values and the float64 coercion (main.go lines 51-66)

A Go `float64` holding an integral value is modelled by the rational it
denotes; the runtime conversion `float64(v)` of an `int64` rounds to the
nearest representable value, ties to even (IEEE 754 binary64, 53-bit
significand), modelled here as exact integer arithmetic. -/

/-- Bit length of a natural number below `2 ^ 64`, via explicit fuel so the
kernel can evaluate it. -/
def bitsAux : Nat → Nat → Nat
  | 0, _ => 0
  | fuel + 1, n => if n = 0 then 0 else bitsAux fuel (n / 2) + 1

/-- Bit length of a natural number below `2 ^ 64`. -/
def bits64 (n : Nat) : Nat := bitsAux 64 n

/-- Round a natural number to the nearest IEEE 754 binary64 value (53-bit
significand, ties to even), returned exactly as a natural number. -/
def roundF64 (n : Nat) : Nat :=
  if n < 2 ^ 53 then n
  else
    let e := bits64 n - 53
    let q := n / 2 ^ e
    let r := n % 2 ^ e
    let half := 2 ^ e / 2
    let q' :=
      if r < half then q
      else if half < r then q + 1
      else if q % 2 = 0 then q else q + 1
    q' * 2 ^ e

/-- Go's runtime conversion `float64(v)` for an `int64` argument, as the exact
integer value of the resulting float. -/
def f64ofInt (v : Int) : Int :=
  if v < 0 then -(roundF64 v.natAbs : Int) else (roundF64 v.natAbs : Int)

example : f64ofInt (2 ^ 53 + 1) = 2 ^ 53 := by decide
example : f64ofInt (2 ^ 53 + 3) = 2 ^ 53 + 4 := by decide
example : f64ofInt (-(2 ^ 53 + 1)) = -(2 ^ 53) := by decide
example : f64ofInt 42 = 42 := by decide

/-- The dynamic type of a decoded field value, as discriminated by the type
switch in main.go lines 53-66.  `str` stands for every dynamic type other than
`float64`, `int64` and `bool` (e.g. a line-protocol string field). -/
inductive FieldValue where
  | f64 (x : ℚ)
  | i64 (v : Int)
  | boolean (b : Bool)
  | str (s : List Nat)
deriving DecidableEq

/-- The value coercion of main.go lines 52-66: `float64` passes through,
`int64` goes through Go's `float64(v)` conversion, `bool` maps to 1/0, and any
other dynamic type is skipped (`continue`), modelled as `none`. -/
def coerceValue : FieldValue → Option ℚ
  | .f64 x => some x
  | .i64 v => some ((f64ofInt v : Int) : ℚ)
  | .boolean b => some (if b then 1 else 0)
  | .str _ => none

example : coerceValue (.boolean true) = some 1 := by decide
example : coerceValue (.i64 7) = some (7 : ℚ) := by decide

/-! ### The label map (main.go lines 80-89)

`sample.Labels` is a Go map; its contents are modelled as an association list
with unique keys, where assignment updates the existing entry or appends. -/

/-- The reserved metric-name key `"__name__"` (main.go line 84). -/
def nameKey : List Nat := asciiBytes "__name__"

/-- Go map assignment `m[k] = v`: replace the entry for `k` when present,
otherwise add one. -/
def mapSet : List (List Nat × List Nat) → List Nat → List Nat → List (List Nat × List Nat)
  | [], k, v => [(k, v)]
  | (k', v') :: rest, k, v =>
    if k' = k then (k, v) :: rest else (k', v') :: mapSet rest k v

/-- Go map lookup `m[k]` as an option. -/
def lookupOpt : List (List Nat × List Nat) → List Nat → Option (List Nat)
  | [], _ => none
  | (k', v') :: rest, k => if k' = k then some v' else lookupOpt rest k

/-- Go map lookup `m[k]` with the zero value (empty string) for missing keys. -/
def lookupD (m : List (List Nat × List Nat)) (k : List Nat) : List Nat :=
  (lookupOpt m k).getD []

/-- The tag loop of main.go lines 82-89: iterate the point's tags in order,
skip any tag whose RAW key equals `"__name__"`, sanitize the remaining keys,
and assign the raw value into the label map.  Sanitizing an empty key panics
(`none`). -/
def buildLabelsAux (acc : List (List Nat × List Nat)) :
    List (List Nat × List Nat) → Option (List (List Nat × List Nat))
  | [] => some acc
  | (k, v) :: rest =>
    if k = nameKey then buildLabelsAux acc rest
    else
      match ReplaceInvalidChars k with
      | none => none
      | some k' => buildLabelsAux (mapSet acc k' v) rest

/-- The label map built from a point's tag list (main.go lines 80-89). -/
def buildLabels (tags : List (List Nat × List Nat)) :
    Option (List (List Nat × List Nat)) :=
  buildLabelsAux [] tags

/-- The raw value of the LAST tag in iteration order that survives the
`"__name__"` skip and whose sanitized key equals `k` — the value a Go map
assignment sequence leaves in place. -/
def lastWins : List (List Nat × List Nat) → List Nat → Option (List Nat)
  | [], _ => none
  | (tk, tv) :: rest, k =>
    if tk = nameKey then lastWins rest k
    else if ReplaceInvalidChars tk = some k then
      match lastWins rest k with
      | some v => some v
      | none => some tv
    else lastWins rest k

/-- Left-biased choice on options, as produced by layering map assignments. -/
def optOr : Option (List Nat) → Option (List Nat) → Option (List Nat)
  | some v, _ => some v
  | none, b => b

/-! ### The identity builder (main.go lines 91-102) -/

/-- Byte-lexicographic string comparison, Go's `<` on strings as used by
`sort.Strings`. -/
def lexLe : List Nat → List Nat → Bool
  | [], _ => true
  | _ :: _, [] => false
  | a :: as, b :: bs => if a < b then true else if b < a then false else lexLe as bs

/-- `lexLe` as a relation, for use with `List.insertionSort`. -/
def lexLeP (a b : List Nat) : Prop := lexLe a b = true

instance : DecidableRel lexLeP := fun a b => instDecidableEqBool (lexLe a b) true

/-- `sort.Strings` (main.go line 96): sort a list of strings into ascending
byte-lexicographic order. -/
def sortStrings (l : List (List Nat)) : List (List Nat) :=
  List.insertionSort lexLeP l

/-- `strings.Join(parts, ".")` (main.go line 102). -/
def joinDot : List (List Nat) → List Nat
  | [] => []
  | [x] => x
  | x :: y :: ys => x ++ 46 :: joinDot (y :: ys)

/-- The `parts` loop of main.go lines 99-101: after the name, append for each
sorted label key the key and then its looked-up value. -/
def flatPairs (keys : List (List Nat)) (labels : List (List Nat × List Nat)) :
    List (List Nat) :=
  keys.foldr (fun k acc => k :: lookupD labels k :: acc) []

/-- The sample identity string (main.go lines 91-102): collect the label keys,
sort them, list the name followed by each key/value pair, and join with `.`. -/
def sampleID (nm : List Nat) (labels : List (List Nat × List Nat)) : List Nat :=
  joinDot (nm :: flatPairs (sortStrings (labels.map Prod.fst)) labels)

example : sampleID (asciiBytes "m") [(asciiBytes "k", asciiBytes "v")] =
    asciiBytes "m.k.v" := by decide

/-! ### One (point, field) iteration of `parsePointsToSample`
(main.go lines 51-102) -/

/-- The sample record (main.go lines 35-41).  The timestamp is in nanoseconds
since the epoch. -/
structure influxDBSample where
  ID : List Nat
  Name : List Nat
  Labels : List (List Nat × List Nat)
  Value : ℚ
  Timestamp : Int
deriving DecidableEq

/-- The field name literal `"value"` (main.go line 69). -/
def valueField : List Nat := asciiBytes "value"

/-- The body of the inner field loop of `parsePointsToSample` (main.go lines
51-102) for one (point, field) pair: coerce the value (other types are skipped,
`some none`), derive and sanitize the metric name, build the label map, and
compute the identity.  A sanitizer panic propagates as `none`. -/
def parseFieldToSample (measurement : List Nat) (ptime : Int)
    (tags : List (List Nat × List Nat)) (field : List Nat) (v : FieldValue) :
    Option (Option influxDBSample) :=
  match coerceValue v with
  | none => some none
  | some value =>
    let raw := if field = valueField then measurement else measurement ++ 95 :: field
    match ReplaceInvalidChars raw with
    | none => none
    | some nm =>
      match buildLabels tags with
      | none => none
      | some labels =>
        some (some { ID := sampleID nm labels, Name := nm, Labels := labels,
                     Value := value, Timestamp := ptime })

/-! ### The emit step (main.go lines 113-128 and 154-157) -/

/-- Outcome of processing one sample's emit step: either the process aborts
through `handleErr` or the sample is emitted and the loop continues. -/
inductive EmitResult where
  | aborted (exitCode : Nat) (msg : List Nat)
  | emitted
deriving DecidableEq

/-- `handleErr` (main.go lines 154-157): print the message to the error stream
and exit with code 1. -/
def handleErr (msg : List Nat) : EmitResult :=
  .aborted 1 msg

/-- The serialization of one sample (main.go lines 120-128): a failure of
`metric.Write` goes through `handleErr`; the return value of `enc.Encode(&mf)`
on line 128 is discarded, so the encode outcome never influences the result. -/
def emitSample (writeErr : Option (List Nat)) (encodeErr : Option (List Nat)) :
    EmitResult :=
  match writeErr, encodeErr with
  | some e, _ => handleErr e
  | none, _ => .emitted

/-! ### Helper lemmas: map assignment and the last-wins characterization -/

theorem lookupOpt_mapSet_self (m : List (List Nat × List Nat)) (k v : List Nat) :
    lookupOpt (mapSet m k v) k = some v := by
  induction m with
  | nil => simp [mapSet, lookupOpt]
  | cons p rest ih =>
    obtain ⟨k', v'⟩ := p
    by_cases h : k' = k
    · simp [mapSet, h, lookupOpt]
    · simp [mapSet, h, lookupOpt, ih]

theorem lookupOpt_mapSet_ne (m : List (List Nat × List Nat)) (k v k' : List Nat)
    (h : k' ≠ k) : lookupOpt (mapSet m k v) k' = lookupOpt m k' := by
  induction m with
  | nil => simp [mapSet, lookupOpt, Ne.symm h]
  | cons p rest ih =>
    obtain ⟨k₀, v₀⟩ := p
    by_cases h₀ : k₀ = k
    · subst h₀
      simp [mapSet, lookupOpt, Ne.symm h]
    · by_cases h₁ : k₀ = k'
      · simp [mapSet, h₀, lookupOpt, h₁, h, Ne.symm h]
      · simp [mapSet, h₀, lookupOpt, h₁, ih]

theorem optOr_some_right (a : Option (List Nat)) (v : List Nat)
    (x : Option (List Nat)) : optOr (optOr a (some v)) x = optOr a (some v) := by
  cases a <;> simp [optOr]

theorem optOr_none_right (a : Option (List Nat)) : optOr a none = a := by
  cases a <;> simp [optOr]

theorem buildLabelsAux_lookup (tags : List (List Nat × List Nat)) :
    ∀ acc m, buildLabelsAux acc tags = some m →
      ∀ k, lookupOpt m k = optOr (lastWins tags k) (lookupOpt acc k) := by
  induction tags with
  | nil =>
    intro acc m h k
    simp [buildLabelsAux] at h
    subst h
    simp [lastWins, optOr]
  | cons t rest ih =>
    intro acc m h k
    obtain ⟨tk, tv⟩ := t
    by_cases hname : tk = nameKey
    · simp [buildLabelsAux, hname] at h
      simpa [lastWins, hname] using ih acc m h k
    · simp [buildLabelsAux, hname] at h
      cases hrep : ReplaceInvalidChars tk with
      | none => rw [hrep] at h; exact absurd h (by simp)
      | some tk' =>
        rw [hrep] at h
        simp at h
        have hrec := ih (mapSet acc tk' tv) m h k
        by_cases hk : tk' = k
        · subst hk
          rw [lookupOpt_mapSet_self] at hrec
          have hlw : lastWins ((tk, tv) :: rest) tk' =
              optOr (lastWins rest tk') (some tv) := by
            simp [lastWins, hname, hrep]
            cases lastWins rest tk' <;> simp [optOr]
          rw [hlw, optOr_some_right]
          exact hrec
        · rw [lookupOpt_mapSet_ne _ _ _ _ (fun hh => hk hh.symm)] at hrec
          have hlw : lastWins ((tk, tv) :: rest) k = lastWins rest k := by
            simp [lastWins, hname, hrep, hk]
          rw [hlw]
          exact hrec

theorem buildLabels_lookup (tags : List (List Nat × List Nat))
    (m : List (List Nat × List Nat)) (h : buildLabels tags = some m) (k : List Nat) :
    lookupOpt m k = lastWins tags k := by
  have := buildLabelsAux_lookup tags [] m h k
  simpa [lookupOpt, optOr_none_right] using this

theorem lastWins_nameKey_none (tags : List (List Nat × List Nat))
    (h : ∀ t ∈ tags, t.1 ≠ nameKey → ReplaceInvalidChars t.1 ≠ some nameKey) :
    lastWins tags nameKey = none := by
  induction tags with
  | nil => simp [lastWins]
  | cons t rest ih =>
    obtain ⟨tk, tv⟩ := t
    have hrest := ih (fun t ht => h t (List.mem_cons_of_mem _ ht))
    by_cases hname : tk = nameKey
    · simp [lastWins, hname, hrest]
    · have := h (tk, tv) (List.mem_cons_self _ _) hname
      simp [lastWins, hname, this, hrest]

/-! ### Helper lemmas: the byte-lexicographic order and `sortStrings` -/

theorem lexLe_total (a b : List Nat) : lexLe a b = true ∨ lexLe b a = true := by
  induction a generalizing b with
  | nil => left; rfl
  | cons x xs ih =>
    cases b with
    | nil => right; rfl
    | cons y ys =>
      rcases Nat.lt_trichotomy x y with h | h | h
      · left; simp [lexLe, h]
      · subst h
        rcases ih ys with h' | h'
        · left; simp [lexLe, h']
        · right; simp [lexLe, h']
      · right; simp [lexLe, h]

theorem lexLe_trans (a b c : List Nat) (hab : lexLe a b = true)
    (hbc : lexLe b c = true) : lexLe a c = true := by
  induction a generalizing b c with
  | nil => rfl
  | cons x xs ih =>
    cases b with
    | nil => simp [lexLe] at hab
    | cons y ys =>
      cases c with
      | nil => simp [lexLe] at hbc
      | cons z zs =>
        rcases Nat.lt_trichotomy x y with hxy | hxy | hxy
        · rcases Nat.lt_trichotomy y z with hyz | hyz | hyz
          · simp [lexLe, Nat.lt_trans hxy hyz]
          · subst hyz; simp [lexLe, hxy]
          · simp [lexLe, hyz, Nat.lt_asymm hyz] at hbc
        · subst hxy
          rcases Nat.lt_trichotomy x z with hyz | hyz | hyz
          · simp [lexLe, hyz]
          · subst hyz
            simp [lexLe, Nat.lt_irrefl] at hab hbc ⊢
            exact ih ys zs hab hbc
          · simp [lexLe, hyz, Nat.lt_asymm hyz] at hbc
        · simp [lexLe, hxy, Nat.lt_asymm hxy] at hab

theorem lexLe_antisymm (a b : List Nat) (hab : lexLe a b = true)
    (hba : lexLe b a = true) : a = b := by
  induction a generalizing b with
  | nil =>
    cases b with
    | nil => rfl
    | cons y ys => simp [lexLe] at hba
  | cons x xs ih =>
    cases b with
    | nil => simp [lexLe] at hab
    | cons y ys =>
      rcases Nat.lt_trichotomy x y with hxy | hxy | hxy
      · simp [lexLe, hxy, Nat.lt_asymm hxy] at hba
      · subst hxy
        simp [lexLe, Nat.lt_irrefl] at hab hba
        rw [ih ys hab hba]
      · simp [lexLe, hxy, Nat.lt_asymm hxy] at hab

instance : IsTotal (List Nat) lexLeP := ⟨lexLe_total⟩

instance : IsTrans (List Nat) lexLeP := ⟨lexLe_trans⟩

instance : IsAntisymm (List Nat) lexLeP := ⟨lexLe_antisymm⟩

theorem sortStrings_perm (l : List (List Nat)) : (sortStrings l).Perm l :=
  List.perm_insertionSort lexLeP l

theorem mem_sortStrings (k : List Nat) (l : List (List Nat)) :
    k ∈ sortStrings l ↔ k ∈ l :=
  (sortStrings_perm l).mem_iff

theorem sortStrings_eq_of_perm (l₁ l₂ : List (List Nat)) (h : l₁.Perm l₂) :
    sortStrings l₁ = sortStrings l₂ := by
  exact List.eq_of_perm_of_sorted
    (((sortStrings_perm l₁).trans h).trans (sortStrings_perm l₂).symm)
    (List.sorted_insertionSort lexLeP l₁) (List.sorted_insertionSort lexLeP l₂)

/-! ### Helper lemmas: lookups under permutation, and lookups landing in the list -/

theorem lookupOpt_perm (l₁ l₂ : List (List Nat × List Nat)) (h : l₁.Perm l₂)
    (hnd : (l₁.map Prod.fst).Nodup) (k : List Nat) :
    lookupOpt l₁ k = lookupOpt l₂ k := by
  induction h with
  | nil => rfl
  | cons p hrest ih =>
    obtain ⟨pk, pv⟩ := p
    simp only [List.map_cons, List.nodup_cons] at hnd
    by_cases hk : pk = k
    · simp [lookupOpt, hk]
    · simp only [lookupOpt, hk, if_neg hk]
      exact ih hnd.2
  | swap p q l =>
    obtain ⟨pk, pv⟩ := p
    obtain ⟨qk, qv⟩ := q
    simp only [List.map_cons, List.nodup_cons, List.mem_cons] at hnd
    by_cases hq : qk = k
    · subst hq
      have hpq : pk ≠ qk := fun hh => hnd.1 (Or.inl hh.symm)
      simp [lookupOpt, hpq]
    · by_cases hp : pk = k
      · simp [lookupOpt, hp, hq]
      · simp [lookupOpt, hp, hq]
  | trans h₁ h₂ ih₁ ih₂ =>
    have hnd₂ := ((h₁.map Prod.fst).nodup_iff).mp hnd
    exact (ih₁ hnd).trans (ih₂ hnd₂)

theorem lookupD_mem (l : List (List Nat × List Nat)) (k : List Nat)
    (h : k ∈ l.map Prod.fst) : (k, lookupD l k) ∈ l := by
  induction l with
  | nil => simp at h
  | cons p rest ih =>
    obtain ⟨pk, pv⟩ := p
    by_cases hk : pk = k
    · subst hk
      simp [lookupD, lookupOpt]
    · simp only [List.map_cons, List.mem_cons] at h
      rcases h with h | h
      · exact absurd h.symm hk
      · have hl : lookupD ((pk, pv) :: rest) k = lookupD rest k := by
          simp [lookupD, lookupOpt, hk]
        rw [hl]
        exact List.mem_cons_of_mem _ (ih h)

/-! ### Helper lemmas: injectivity of the dot join on dot-free parts -/

theorem append_dot_inj (x y u v : List Nat) (hx : (46 : Nat) ∉ x)
    (hy : (46 : Nat) ∉ y) (h : x ++ 46 :: u = y ++ 46 :: v) : x = y ∧ u = v := by
  induction x generalizing y with
  | nil =>
    cases y with
    | nil => simpa using h
    | cons b ys =>
      simp only [List.nil_append, List.cons_append, List.cons_eq_cons] at h
      exact absurd (h.1 ▸ List.mem_cons_self b ys) (h.1 ▸ hy)
  | cons a xs ih =>
    cases y with
    | nil =>
      simp only [List.cons_append, List.nil_append, List.cons_eq_cons] at h
      exact absurd (h.1 ▸ List.mem_cons_self a xs) (h.1 ▸ hx)
    | cons b ys =>
      simp only [List.cons_append, List.cons_eq_cons] at h
      obtain ⟨rfl, h⟩ := h
      have := ih ys (fun hm => hx (List.mem_cons_of_mem _ hm))
        (fun hm => hy (List.mem_cons_of_mem _ hm)) h
      exact ⟨by rw [this.1], this.2⟩

theorem joinDot_inj (xs ys : List (List Nat)) (hlen : xs.length = ys.length)
    (hx : ∀ x ∈ xs, (46 : Nat) ∉ x) (hy : ∀ y ∈ ys, (46 : Nat) ∉ y)
    (h : joinDot xs = joinDot ys) : xs = ys := by
  induction xs generalizing ys with
  | nil =>
    cases ys with
    | nil => rfl
    | cons y ys' => simp at hlen
  | cons x xs' ih =>
    cases ys with
    | nil => simp at hlen
    | cons y ys' =>
      cases xs' with
      | nil =>
        cases ys' with
        | nil => simpa [joinDot] using h
        | cons z zs => simp at hlen
      | cons x₂ xs₂ =>
        cases ys' with
        | nil => simp at hlen
        | cons y₂ ys₂ =>
          simp only [joinDot] at h
          have hsplit := append_dot_inj x y (joinDot (x₂ :: xs₂)) (joinDot (y₂ :: ys₂))
            (hx x (List.mem_cons_self _ _)) (hy y (List.mem_cons_self _ _)) h
          have hlen' : (x₂ :: xs₂).length = (y₂ :: ys₂).length := by simpa using hlen
          have htail := ih (y₂ :: ys₂) hlen'
            (fun z hz => hx z (List.mem_cons_of_mem _ hz))
            (fun z hz => hy z (List.mem_cons_of_mem _ hz)) hsplit.2
          rw [hsplit.1, htail]

/-! ### Helper lemmas: the flattened key/value part list -/

theorem flatPairs_length (ks : List (List Nat)) (l : List (List Nat × List Nat)) :
    (flatPairs ks l).length = 2 * ks.length := by
  induction ks with
  | nil => rfl
  | cons k ks' ih =>
    simp only [flatPairs, List.foldr_cons, List.length_cons] at ih ⊢
    omega

theorem mem_flatPairs (x : List Nat) (ks : List (List Nat))
    (l : List (List Nat × List Nat)) (hm : x ∈ flatPairs ks l) :
    x ∈ ks ∨ ∃ k ∈ ks, x = lookupD l k := by
  induction ks with
  | nil => simp [flatPairs] at hm
  | cons k ks' ih =>
    simp only [flatPairs, List.foldr_cons, List.mem_cons] at hm
    rcases hm with rfl | hm
    · exact Or.inl (List.mem_cons_self _ _)
    · rcases hm with rfl | hm
      · exact Or.inr ⟨k, List.mem_cons_self _ _, rfl⟩
      · rcases ih hm with h | ⟨k', hk', rfl⟩
        · exact Or.inl (List.mem_cons_of_mem _ h)
        · exact Or.inr ⟨k', List.mem_cons_of_mem _ hk', rfl⟩

theorem flatPairs_eq_lookups (ks : List (List Nat))
    (l₁ l₂ : List (List Nat × List Nat))
    (h : flatPairs ks l₁ = flatPairs ks l₂) :
    ∀ k ∈ ks, lookupD l₁ k = lookupD l₂ k := by
  induction ks with
  | nil => simp
  | cons k ks' ih =>
    simp only [flatPairs, List.foldr_cons, List.cons_eq_cons] at h
    intro k' hk'
    rcases List.mem_cons.mp hk' with rfl | hk'
    · exact h.2.1
    · exact ih h.2.2 k' hk'

/-! ### Helper lemmas: exactness of the int64 to float64 conversion -/

theorem roundF64_eq_self (n : Nat) (h : n ≤ 2 ^ 53) : roundF64 n = n := by
  rcases Nat.lt_or_ge n (2 ^ 53) with hlt | hge
  · unfold roundF64
    rw [if_pos hlt]
  · have heq : n = 2 ^ 53 := Nat.le_antisymm h hge
    subst heq
    decide

theorem f64ofInt_eq_self (v : Int) (h : v.natAbs ≤ 2 ^ 53) : f64ofInt v = v := by
  unfold f64ofInt
  rw [roundF64_eq_self v.natAbs h]
  by_cases hneg : v < 0
  · rw [if_pos hneg]
    omega
  · rw [if_neg hneg]
    omega

theorem flatPairs_congr (ks : List (List Nat)) (l₁ l₂ : List (List Nat × List Nat))
    (h : ∀ k ∈ ks, lookupD l₁ k = lookupD l₂ k) : flatPairs ks l₁ = flatPairs ks l₂ := by
  induction ks with
  | nil => rfl
  | cons k ks' ih =>
    show k :: lookupD l₁ k :: flatPairs ks' l₁ = k :: lookupD l₂ k :: flatPairs ks' l₂
    rw [h k (List.mem_cons_self _ _),
      ih (fun k' hk' => h k' (List.mem_cons_of_mem _ hk'))]

/-! ## Claim theorems -/

/-- Claim C1: the claim says every character outside {a-z, A-Z, 0-9, _} is
rewritten to `_`, including multi-byte characters, so that the result contains
only allowed characters.  The code refutes this: on the two-byte UTF-8
character U+00E9 (bytes 0xC3 0xA9) only the rune's first byte is overwritten,
and the continuation byte 0xA9 — not an allowed character — survives in the
output. -/
theorem C1_multibyte_eval :
    ReplaceInvalidChars [0xC3, 0xA9] = some [95, 0xA9] ∧
    validRune 0xA9 = false := by decide

/-- Claim C2: the claim (and the spec's prescription) says the sanitizer leaves
the empty string unchanged with the digit-prefix check skipped.  The code
instead indexes byte 0 of the empty string, an out-of-bounds panic, modelled as
`none`. -/
theorem C2_empty_eval : ReplaceInvalidChars [] = none := by decide

/-- Claim C4: the claim says the sanitizer is idempotent on every input.  The
code refutes this on the two-byte character U+00E9: the first application
leaves the stray continuation byte 0xA9 in place, and a second application
rewrites it, yielding a different string. -/
theorem C4_not_idempotent_eval :
    ReplaceInvalidChars [0xC3, 0xA9] = some [95, 0xA9] ∧
    ReplaceInvalidChars [95, 0xA9] = some [95, 95] ∧
    ([95, 95] : List Nat) ≠ [95, 0xA9] := by decide

/-- Claim C3 (counterexample): the claim says a sample's label set never
contains the key `"__name__"`, even for tag keys that only sanitize to
`"__name__"`.  The code checks the RAW key before sanitizing, so the tag key
`"__name.."` — which is not `"__name__"` but sanitizes to it — produces a
sample whose label set maps `"__name__"` to the tag's value. -/
theorem C3_sanitized_name_key_leak :
    parseFieldToSample (asciiBytes "m") 0
        [(asciiBytes "__name..", asciiBytes "v")] valueField (.f64 1) =
      some (some { ID := asciiBytes "m.__name__.v", Name := asciiBytes "m",
                   Labels := [(nameKey, asciiBytes "v")], Value := 1,
                   Timestamp := 0 }) ∧
    asciiBytes "__name.." ≠ nameKey ∧
    lookupOpt [(nameKey, asciiBytes "v")] nameKey = some (asciiBytes "v") := by
  decide

/-- Claim C3 (amended): any tag whose raw key is literally `"__name__"` is
dropped before labeling, so whenever no OTHER tag key sanitizes to
`"__name__"`, the label set of a produced sample contains no `"__name__"`
key. -/
theorem C3_no_name_key_unless_collision (measurement : List Nat) (ptime : Int)
    (tags : List (List Nat × List Nat)) (field : List Nat) (v : FieldValue)
    (s : influxDBSample)
    (hkeys : ∀ t ∈ tags, t.1 ≠ nameKey → ReplaceInvalidChars t.1 ≠ some nameKey)
    (h : parseFieldToSample measurement ptime tags field v = some (some s)) :
    lookupOpt s.Labels nameKey = none := by
  unfold parseFieldToSample at h
  cases hc : coerceValue v with
  | none => rw [hc] at h; simp at h
  | some value =>
    rw [hc] at h
    simp only at h
    cases hr : ReplaceInvalidChars
        (if field = valueField then measurement else measurement ++ 95 :: field) with
    | none => rw [hr] at h; simp at h
    | some nm =>
      rw [hr] at h
      cases hb : buildLabels tags with
      | none => rw [hb] at h; simp at h
      | some labels =>
        rw [hb] at h
        simp only [Option.some.injEq] at h
        have hs : s.Labels = labels := by rw [← h]
        rw [hs, buildLabels_lookup tags labels hb nameKey]
        exact lastWins_nameKey_none tags hkeys

/-- Witness for the amended claim C3 at a concrete point: a `"__name__"` tag
plus an ordinary `host` tag yield a label set without `"__name__"`. -/
theorem C3_witness :
    lookupOpt [(asciiBytes "host", asciiBytes "a")] nameKey = none :=
  C3_no_name_key_unless_collision (asciiBytes "m") 0
    [(nameKey, asciiBytes "x"), (asciiBytes "host", asciiBytes "a")]
    valueField (.f64 1)
    { ID := asciiBytes "m.host.a", Name := asciiBytes "m",
      Labels := [(asciiBytes "host", asciiBytes "a")], Value := 1,
      Timestamp := 0 }
    (by decide) (by decide)

/-- Claim C10: Go map assignment semantics on colliding sanitized keys.  First
part: for every tag list, the label map's entry at any key equals the raw value
of the LAST tag (in iteration order) that survives the `"__name__"` skip and
sanitizes to that key.  Second part: a concrete point with two distinct raw tag
keys `"a.b"` and `"a-b"` (both sanitizing to `"a_b"`) yields a sample with a
single label holding the second tag's value, fewer labels than the point's
non-`"__name__"` tags. -/
theorem C10_colliding_keys_last_wins :
    (∀ tags m, buildLabels tags = some m →
      ∀ k, lookupOpt m k = lastWins tags k) ∧
    (parseFieldToSample (asciiBytes "m") 0
        [(asciiBytes "a.b", asciiBytes "v1"), (asciiBytes "a-b", asciiBytes "v2")]
        valueField (.f64 1) =
      some (some { ID := asciiBytes "m.a_b.v2", Name := asciiBytes "m",
                   Labels := [(asciiBytes "a_b", asciiBytes "v2")], Value := 1,
                   Timestamp := 0 }) ∧
     asciiBytes "a.b" ≠ asciiBytes "a-b" ∧
     ([(asciiBytes "a_b", asciiBytes "v2")] : List (List Nat × List Nat)).length <
       ([(asciiBytes "a.b", asciiBytes "v1"),
         (asciiBytes "a-b", asciiBytes "v2")].filter
           (fun t => decide (t.1 ≠ nameKey))).length) := by
  constructor
  · exact buildLabels_lookup
  · decide

/-- Witness for claim C10's universally quantified part at a concrete tag
list: the colliding key `"a_b"` maps to the last tag's value. -/
theorem C10_witness :
    lookupOpt [(asciiBytes "a_b", asciiBytes "v2")] (asciiBytes "a_b") =
      lastWins [(asciiBytes "a.b", asciiBytes "v1"),
                (asciiBytes "a-b", asciiBytes "v2")] (asciiBytes "a_b") :=
  C10_colliding_keys_last_wins.1
    [(asciiBytes "a.b", asciiBytes "v1"), (asciiBytes "a-b", asciiBytes "v2")]
    [(asciiBytes "a_b", asciiBytes "v2")] (by decide) (asciiBytes "a_b")

/-- Claim C5 (counterexample): the claim says samples with the same name and
the same label keys but different label values always get different identity
strings.  The code joins name, keys and RAW values with `.`; a value containing
`.` can imitate a key/value boundary, so the label sets
`{j: "a.k.b", k: "c"}` and `{j: "a", k: "b.k.c"}` — same name, same keys,
different values — both produce the identity `m.j.a.k.b.k.c`. -/
theorem C5_identity_collision :
    sampleID (asciiBytes "m")
        [(asciiBytes "j", asciiBytes "a.k.b"), (asciiBytes "k", asciiBytes "c")] =
      sampleID (asciiBytes "m")
        [(asciiBytes "j", asciiBytes "a"), (asciiBytes "k", asciiBytes "b.k.c")] ∧
    ([(asciiBytes "j", asciiBytes "a.k.b"),
      (asciiBytes "k", asciiBytes "c")].map Prod.fst =
     [(asciiBytes "j", asciiBytes "a"),
      (asciiBytes "k", asciiBytes "b.k.c")].map Prod.fst) ∧
    lookupD [(asciiBytes "j", asciiBytes "a.k.b"), (asciiBytes "k", asciiBytes "c")]
        (asciiBytes "k") ≠
      lookupD [(asciiBytes "j", asciiBytes "a"), (asciiBytes "k", asciiBytes "b.k.c")]
        (asciiBytes "k") := by decide

/-- Claim C5 (amended): the identity string is injective over label values
PROVIDED no label value contains a `.` byte (names and sanitized keys are
always dot-free): two samples with the same name and the same key multiset
whose identities coincide have equal values at every key. -/
theorem C5_identity_inj_dotfree (nm : List Nat)
    (l₁ l₂ : List (List Nat × List Nat))
    (hkeys : (l₁.map Prod.fst).Perm (l₂.map Prod.fst))
    (hnm : (46 : Nat) ∉ nm)
    (h₁ : ∀ p ∈ l₁, (46 : Nat) ∉ p.1 ∧ (46 : Nat) ∉ p.2)
    (h₂ : ∀ p ∈ l₂, (46 : Nat) ∉ p.1 ∧ (46 : Nat) ∉ p.2)
    (hid : sampleID nm l₁ = sampleID nm l₂) :
    ∀ k ∈ l₁.map Prod.fst, lookupD l₁ k = lookupD l₂ k := by
  have hks : sortStrings (l₂.map Prod.fst) = sortStrings (l₁.map Prod.fst) :=
    (sortStrings_eq_of_perm _ _ hkeys).symm
  unfold sampleID at hid
  rw [hks] at hid
  have hmem₁ : ∀ x ∈ flatPairs (sortStrings (l₁.map Prod.fst)) l₁, (46 : Nat) ∉ x := by
    intro x hx
    rcases mem_flatPairs x _ _ hx with hk | ⟨k, hk, rfl⟩
    · have : x ∈ l₁.map Prod.fst := (mem_sortStrings x _).mp hk
      rcases List.mem_map.mp this with ⟨p, hp, rfl⟩
      exact (h₁ p hp).1
    · have hkm : k ∈ l₁.map Prod.fst := (mem_sortStrings k _).mp hk
      exact (h₁ _ (lookupD_mem l₁ k hkm)).2
  have hmem₂ : ∀ x ∈ flatPairs (sortStrings (l₁.map Prod.fst)) l₂, (46 : Nat) ∉ x := by
    intro x hx
    rcases mem_flatPairs x _ _ hx with hk | ⟨k, hk, rfl⟩
    · have : x ∈ l₂.map Prod.fst := hkeys.mem_iff.mp ((mem_sortStrings x _).mp hk)
      rcases List.mem_map.mp this with ⟨p, hp, rfl⟩
      exact (h₂ p hp).1
    · have hkm : k ∈ l₂.map Prod.fst :=
        hkeys.mem_iff.mp ((mem_sortStrings k _).mp hk)
      exact (h₂ _ (lookupD_mem l₂ k hkm)).2
  have hlen : (nm :: flatPairs (sortStrings (l₁.map Prod.fst)) l₁).length =
      (nm :: flatPairs (sortStrings (l₁.map Prod.fst)) l₂).length := by
    simp [flatPairs_length]
  have heq := joinDot_inj _ _ hlen
    (by
      intro x hx
      rcases List.mem_cons.mp hx with rfl | hx
      · exact hnm
      · exact hmem₁ x hx)
    (by
      intro x hx
      rcases List.mem_cons.mp hx with rfl | hx
      · exact hnm
      · exact hmem₂ x hx)
    hid
  have hflat : flatPairs (sortStrings (l₁.map Prod.fst)) l₁ =
      flatPairs (sortStrings (l₁.map Prod.fst)) l₂ := by
    simpa using heq
  intro k hk
  exact flatPairs_eq_lookups _ _ _ hflat k ((mem_sortStrings k _).mpr hk)

/-- Witness for the amended claim C5 at concrete label lists differing only in
insertion order: their identities coincide and their values agree per key. -/
theorem C5_witness :
    lookupD [(asciiBytes "h", asciiBytes "x"), (asciiBytes "g", asciiBytes "y")]
        (asciiBytes "h") =
      lookupD [(asciiBytes "g", asciiBytes "y"), (asciiBytes "h", asciiBytes "x")]
        (asciiBytes "h") :=
  C5_identity_inj_dotfree (asciiBytes "m")
    [(asciiBytes "h", asciiBytes "x"), (asciiBytes "g", asciiBytes "y")]
    [(asciiBytes "g", asciiBytes "y"), (asciiBytes "h", asciiBytes "x")]
    (by decide) (by decide) (by decide) (by decide) (by decide)
    (asciiBytes "h") (by decide)

/-- Claim C6: the identity builder is deterministic in the label set — for the
same name and the same label map contents (unique keys), any insertion order
yields the same identity string, since the keys are sorted and values are
looked up by key. -/
theorem C6_identity_deterministic (nm : List Nat)
    (l₁ l₂ : List (List Nat × List Nat)) (hperm : l₁.Perm l₂)
    (hnd : (l₁.map Prod.fst).Nodup) :
    sampleID nm l₁ = sampleID nm l₂ := by
  unfold sampleID
  have hks : sortStrings (l₁.map Prod.fst) = sortStrings (l₂.map Prod.fst) :=
    sortStrings_eq_of_perm _ _ (hperm.map Prod.fst)
  rw [← hks]
  have hlook : ∀ k ∈ sortStrings (l₁.map Prod.fst), lookupD l₁ k = lookupD l₂ k := by
    intro k _
    unfold lookupD
    rw [lookupOpt_perm l₁ l₂ hperm hnd k]
  rw [flatPairs_congr _ _ _ hlook]

/-- Witness for claim C6 at a concrete pair of permuted label lists. -/
theorem C6_witness :
    sampleID (asciiBytes "m")
        [(asciiBytes "a", asciiBytes "1"), (asciiBytes "b", asciiBytes "2")] =
      sampleID (asciiBytes "m")
        [(asciiBytes "b", asciiBytes "2"), (asciiBytes "a", asciiBytes "1")] :=
  C6_identity_deterministic (asciiBytes "m")
    [(asciiBytes "a", asciiBytes "1"), (asciiBytes "b", asciiBytes "2")]
    [(asciiBytes "b", asciiBytes "2"), (asciiBytes "a", asciiBytes "1")]
    (List.Perm.swap (asciiBytes "b", asciiBytes "2")
      (asciiBytes "a", asciiBytes "1") []) (by decide)

/-- Claim C7 (counterexample): the claim says every `int64` converts losslessly
to `float64`.  The value `2 ^ 53 + 1` is not representable in a 53-bit
significand; Go's conversion rounds it to `2 ^ 53` (ties to even), so the
coerced scalar differs from the integer. -/
theorem C7_int64_not_lossless :
    coerceValue (.i64 (2 ^ 53 + 1)) ≠ some (((2 ^ 53 + 1 : Int) : ℚ)) := by
  decide

/-- Claim C7 (amended): `float64` passes through unchanged, `bool` maps to
1/0, any other dynamic type is skipped with no sample, and `int64` converts
EXACTLY whenever its magnitude is at most `2 ^ 53` (not for every `int64`
value). -/
theorem C7_coercion (x : ℚ) (s : List Nat) :
    coerceValue (.f64 x) = some x ∧
    coerceValue (.boolean true) = some 1 ∧
    coerceValue (.boolean false) = some 0 ∧
    coerceValue (.str s) = none ∧
    (∀ v : Int, v.natAbs ≤ 2 ^ 53 → coerceValue (.i64 v) = some ((v : Int) : ℚ)) := by
  refine ⟨rfl, rfl, rfl, rfl, ?_⟩
  intro v hv
  simp [coerceValue, f64ofInt_eq_self v hv]

/-- Witness for the amended claim C7 at the concrete in-range value 9. -/
theorem C7_witness : coerceValue (.i64 9) = some ((9 : Int) : ℚ) :=
  (C7_coercion 0 []).2.2.2.2 9 (by decide)

/-- Claim C8: for every (point, field) pair that yields a sample, the sample's
metric name is the sanitizer applied to the measurement name itself when the
field name is exactly `"value"`, and to measurement `++ "_" ++` field name
otherwise. -/
theorem C8_metric_name (measurement : List Nat) (ptime : Int)
    (tags : List (List Nat × List Nat)) (field : List Nat) (v : FieldValue)
    (s : influxDBSample)
    (h : parseFieldToSample measurement ptime tags field v = some (some s)) :
    (field = valueField → ReplaceInvalidChars measurement = some s.Name) ∧
    (field ≠ valueField →
      ReplaceInvalidChars (measurement ++ 95 :: field) = some s.Name) := by
  unfold parseFieldToSample at h
  cases hc : coerceValue v with
  | none => rw [hc] at h; simp at h
  | some value =>
    rw [hc] at h
    simp only at h
    cases hr : ReplaceInvalidChars
        (if field = valueField then measurement else measurement ++ 95 :: field) with
    | none => rw [hr] at h; simp at h
    | some nm =>
      rw [hr] at h
      cases hb : buildLabels tags with
      | none => rw [hb] at h; simp at h
      | some labels =>
        rw [hb] at h
        simp only [Option.some.injEq] at h
        have hs : s.Name = nm := by rw [← h]
        constructor
        · intro hf
          rw [hs, ← hr, if_pos hf]
        · intro hf
          rw [hs, ← hr, if_neg hf]

/-- Witness for claim C8 at a concrete point: measurement `"cpu"` with field
`"usage"` names the sample `cpu_usage`. -/
theorem C8_witness :
    ReplaceInvalidChars (asciiBytes "cpu" ++ 95 :: asciiBytes "usage") =
      some (asciiBytes "cpu_usage") :=
  (C8_metric_name (asciiBytes "cpu") 0 [] (asciiBytes "usage") (.f64 1)
    { ID := asciiBytes "cpu_usage", Name := asciiBytes "cpu_usage",
      Labels := [], Value := 1, Timestamp := 0 }
    (by decide)).2 (by decide)

/-- Claim C9 (counterexample): the claim says every serialization failure,
including one returned by the encoder's `Encode` call, aborts the run.  The
code discards the return value of `enc.Encode(&mf)` (main.go line 128), so a
failing encode leaves the run in the `emitted` state instead of aborting. -/
theorem C9_encode_error_discarded :
    emitSample none (some (asciiBytes "encode failure")) = EmitResult.emitted ∧
    EmitResult.emitted ≠
      EmitResult.aborted 1 (asciiBytes "encode failure") := by decide

/-- Claim C9 (amended): a failure of `metric.Write` is fatal — the run aborts
with exit code 1 and the message on the error stream — but the result of the
encoder's `Encode` call is silently discarded and never affects the outcome. -/
theorem C9_write_fatal_encode_ignored :
    (∀ e enc, emitSample (some e) enc = EmitResult.aborted 1 e) ∧
    (∀ enc, emitSample none enc = EmitResult.emitted) :=
  ⟨fun _ _ => rfl, fun _ => rfl⟩

end InfluxdbExporter
